import Mathlib

/-!
Verification of the eccenca Corporate Memory query runner
(`redash/query_runner/corporate_memory.py`).

The runner's core is `_transform_sparql_results`, a one-pass translation of a
SPARQL 1.1 JSON results payload into redash's `{columns, rows}` shape, plus
`_setup_environment`, which stages allow-listed configuration keys into the
process environment, and `run_query`, which glues the external SPARQL client
to the translator.

We embed the Python code shallowly: JSON values become an inductive `Json`
type, Python dictionaries become association lists, and Python exceptions
(`KeyError`, `TypeError`) become an explicit `Except PyErr` result.  The
functions below mirror the source line by line.
-/

namespace CorporateMemory

/-- JSON values as produced by a JSON parse.  Object keys are strings, as in
any value produced by parsing JSON text. -/
inductive Json where
  | null : Json
  | bool (b : Bool) : Json
  | num (n : Int) : Json
  | str (s : String) : Json
  | arr (elems : List Json) : Json
  | obj (entries : List (String × Json)) : Json

/-- Python exceptions that the translated code can raise: `KeyError` from a
dictionary lookup with a missing key, `TypeError` from subscripting a
non-dictionary with a string key, and the parse failure of `json_loads` on
text that is not valid JSON. -/
inductive PyErr where
  | keyError (k : String) : PyErr
  | typeError : PyErr
  | malformedJson : PyErr
deriving DecidableEq

/-- First-match lookup in an association list (Python `d[k]` on a dict,
success case). -/
def alookup {β : Type} : List (String × β) → String → Option β
  | [], _ => none
  | (k, v) :: rest, key => if k = key then some v else alookup rest key

/-- Python `d[k] = v` on a dict: replace the value at the first occurrence of
the key, or append a fresh entry. -/
def ainsert {β : Type} : List (String × β) → String → β → List (String × β)
  | [], key, v => [(key, v)]
  | (k, w) :: rest, key, v =>
    if k = key then (key, v) :: rest else (k, w) :: ainsert rest key v

/-- Python `d.pop(k)` on a dict: remove the entry for the key. -/
def aremove {β : Type} : List (String × β) → String → List (String × β)
  | [], _ => []
  | (k, v) :: rest, key =>
    if k = key then aremove rest key else (k, v) :: aremove rest key

/-- Keys of an association list, in order. -/
def akeys {β : Type} (l : List (String × β)) : List String := l.map Prod.fst

/-- Python subscript `j[k]` with a string key: on a dict it is a lookup that
raises `KeyError` when the key is absent; on any other JSON-parsed value
(list, string, number, boolean, null) it raises `TypeError`. -/
def getItem : Json → String → Except PyErr Json
  | .obj entries, k =>
    match alookup entries k with
    | some v => .ok v
    | none => .error (.keyError k)
  | _, _ => .error .typeError

/-- Python `j[a][b]`. -/
def getItem2 (j : Json) (a b : String) : Except PyErr Json :=
  match getItem j a with
  | .ok x => getItem x b
  | .error e => .error e

/-- Python `for x in j`: a list iterates its elements, a string its
characters, a dict its keys; other values raise `TypeError`. -/
def iterElems : Json → Except PyErr (List Json)
  | .arr xs => .ok xs
  | .str s => .ok (s.data.map fun c => .str (String.mk [c]))
  | .obj entries => .ok (entries.map fun kv => .str kv.1)
  | _ => .error .typeError

/-- The expression `sparql_row[var]["value"]` from the inner loop of
`_transform_sparql_results`. -/
def getBound (sparql_row : Json) (v : String) : Except PyErr Json :=
  match getItem sparql_row v with
  | .ok d => getItem d "value"
  | .error e => .error e

/-- One inner-loop step of `_transform_sparql_results`:
`try: row[var] = sparql_row[var]["value"] except KeyError: row[var] = ""`.
A `KeyError` from either lookup is caught and the variable is bound to the
empty string; a `TypeError` propagates.  The JSON dictionaries reaching this
code come from a JSON parse, whose keys are all strings, so a non-string
element of `head.vars` (which Python would use as a fresh dictionary key) is
outside the modelled domain and mapped to `TypeError`. -/
def bindVar (sparql_row : Json) (row : List (String × Json)) :
    Json → Except PyErr (List (String × Json))
  | .str v =>
    match getBound sparql_row v with
    | .ok x => .ok (ainsert row v x)
    | .error (.keyError _) => .ok (ainsert row v (.str ""))
    | .error e => .error e
  | _ => .error .typeError

/-- The inner loop of `_transform_sparql_results`: fold `bindVar` over the
variables of `head.vars`. -/
def buildRow (sparql_row : Json) :
    List (String × Json) → List Json → Except PyErr (List (String × Json))
  | row, [] => .ok row
  | row, var :: rest =>
    match bindVar sparql_row row var with
    | .ok row1 => buildRow sparql_row row1 rest
    | .error e => .error e

/-- The outer loop of `_transform_sparql_results` over
`sparql_results["results"]["bindings"]`.  As in the source, the expression
`sparql_results["head"]["vars"]` is re-evaluated on every iteration. -/
def buildRows (sparql_results : Json) : List Json → Except PyErr (List Json)
  | [] => .ok []
  | sparql_row :: rest =>
    match getItem2 sparql_results "head" "vars" with
    | .error e => .error e
    | .ok vs =>
      match iterElems vs with
      | .error e => .error e
      | .ok vars =>
        match buildRow sparql_row [] vars with
        | .error e => .error e
        | .ok row =>
          match buildRows sparql_results rest with
          | .error e => .error e
          | .ok rows => .ok (Json.obj row :: rows)

/-- One entry of the `columns` list:
`{"name": var, "friendly_name": var, "type": "string"}`. -/
def mkCol (var : Json) : Json :=
  .obj [("name", var), ("friendly_name", var), ("type", .str "string")]

/-- The body of `_transform_sparql_results` after `json_loads`: build the
rows (fetching `results.bindings` and, per row, `head.vars`), then build the
columns from `head.vars`, and return `{"columns": columns, "rows": rows}`.
The final `json_dumps` serialization is kept structural. -/
def transform (sparql_results : Json) : Except PyErr Json :=
  match getItem2 sparql_results "results" "bindings" with
  | .error e => .error e
  | .ok bindings =>
    match iterElems bindings with
    | .error e => .error e
    | .ok blist =>
      match buildRows sparql_results blist with
      | .error e => .error e
      | .ok rows =>
        match getItem2 sparql_results "head" "vars" with
        | .error e => .error e
        | .ok vs =>
          match iterElems vs with
          | .error e => .error e
          | .ok vars =>
            .ok (.obj [("columns", .arr (vars.map mkCol)),
                       ("rows", .arr rows)])

/-- Modelled from the spec: `redash.utils.json_loads` is repository code not
under `src/`; per the spec it parses the input string as JSON and fails when
the string is not valid JSON.  We abstract the parser as any function
`String → Option Json` that returns `none` exactly on invalid JSON, and the
translator `_transform_sparql_results` raises a parse error in that case. -/
def translate (parse : String → Option Json) (s : String) : Except PyErr Json :=
  match parse s with
  | none => .error .malformedJson
  | some j => transform j

/-- The translator together with the only shared state it touches: the
logger.  `_transform_sparql_results` appends one log line
(`logger.info("results are: ...")`) and otherwise reads and writes no state
outside its own locals, so its result component depends only on the input. -/
def translateLogged (parse : String → Option Json) (s : String)
    (log : List String) : Except PyErr Json × List String :=
  (translate parse s, log ++ ["results are: " ++ s])

/-! ## Environment staging and query execution -/

/-- The process environment, a string-to-string map (`os.environ`). -/
abbrev Env : Type := List (String × String)

/-- The data source configuration.  Values are strings from the
configuration schema; a key may be absent or explicitly null. -/
abbrev Config : Type := List (String × Option String)

/-- Python `self.configuration.get(key, None)`: `none` when the key is
absent or its value is null. -/
def cfgGet (cfg : Config) (key : String) : Option String :=
  match alookup cfg key with
  | some (some v) => some v
  | _ => none

/-- The allow-list `KNOWN_CONFIG_KEYS` from the source. -/
def KNOWN_CONFIG_KEYS : List String :=
  ["CMEM_BASE_PROTOCOL", "CMEM_BASE_DOMAIN", "CMEM_BASE_URI", "SSL_VERIFY",
   "REQUESTS_CA_BUNDLE", "DP_API_ENDPOINT", "DI_API_ENDPOINT",
   "OAUTH_TOKEN_URI", "OAUTH_GRANT_TYPE", "OAUTH_USER", "OAUTH_PASSWORD",
   "OAUTH_CLIENT_ID", "OAUTH_CLIENT_SECRET"]

/-- One iteration of the loop in `_setup_environment`:
`if key in environ: environ.pop(key)`, then
`value = configuration.get(key, None)`, then
`if value is not None: environ[key] = value`. -/
def setupStep (cfg : Config) (env : Env) (key : String) : Env :=
  let env1 := if (alookup env key).isSome then aremove env key else env
  match cfgGet cfg key with
  | some value => ainsert env1 key value
  | none => env1

/-- The method `_setup_environment`: fold `setupStep` over the allow-list. -/
def setup_environment (cfg : Config) (env : Env) : Env :=
  KNOWN_CONFIG_KEYS.foldl (setupStep cfg) env

/-- The method `run_query`, with the external client
(`SparqlQuery(query).get_results()`) abstracted as a possibly-raising
function `getResults` and the process environment threaded explicitly.
The `.encode("utf-8")` calls are identity at the level of abstract strings.
The first component is the call's outcome: an uncaught exception from the
external client or the translator, or the returned pair `(data, error)`
with `error = None`. -/
def run_query (parse : String → Option Json)
    (getResults : String → Except PyErr String)
    (cfg : Config) (env : Env) (query : String) :
    Except PyErr (Json × Option String) × Env :=
  let env1 := setup_environment cfg env
  match getResults query with
  | .error e => (.error e, env1)
  | .ok raw =>
    match translate parse raw with
    | .error e => (.error e, env1)
    | .ok data => (.ok (data, none), env1)

/-! ## Spec-side descriptions

These definitions follow the words of the specification and the claims; the
theorems below compare them with the embedded code. -/

/-- The claim's description of one row cell: `row[v]` is `b[v].value` when
`v` is a key of the binding and the descriptor has a `value` field, and the
empty string otherwise. -/
def specRowVal (b : List (String × Json)) (v : String) : Json :=
  match alookup b v with
  | some (.obj d) =>
    match alookup d "value" with
    | some x => x
    | none => .str ""
  | _ => .str ""

/-- The claim's description of the row built for a binding: each variable of
`head.vars`, in order, bound by `specRowVal`. -/
def specRow (b : List (String × Json)) (names : List String) :
    List (String × Json) :=
  names.foldl (fun r v => ainsert r v (specRowVal b v)) []

/-- The claim's description of one column entry:
`{name: v, friendly_name: v, type: "string"}`. -/
def specCol (v : String) : Json :=
  .obj [("name", .str v), ("friendly_name", .str v), ("type", .str "string")]

/-- Whether a JSON value is an object. -/
def isObj : Json → Bool
  | .obj _ => true
  | _ => false

/-- Well-shaped input for the translator, as the claims hypothesise it:
`head.vars` is an array of strings, `results.bindings` an array of objects,
and (the amendment forced by the `TypeError` path) every value descriptor
inside a binding is itself an object. -/
def WellShaped (j : Json) (names : List String)
    (bs : List (List (String × Json))) : Prop :=
  getItem2 j "head" "vars" = .ok (.arr (names.map Json.str)) ∧
  getItem2 j "results" "bindings" = .ok (.arr (bs.map Json.obj)) ∧
  ∀ b ∈ bs, ∀ p ∈ b, isObj p.2 = true

/-! ## Association-list lemmas -/

theorem alookup_ainsert {β : Type} (l : List (String × β)) (k k' : String)
    (v : β) :
    alookup (ainsert l k v) k' = if k = k' then some v else alookup l k' := by
  induction l with
  | nil => simp [ainsert, alookup]
  | cons p rest ih =>
    obtain ⟨k0, w⟩ := p
    by_cases h0 : k0 = k
    · subst h0
      by_cases h1 : k0 = k'
      · subst h1; simp [ainsert, alookup]
      · simp [ainsert, alookup, h1]
    · by_cases h1 : k0 = k'
      · subst h1
        have hk : ¬ k = k0 := fun h => h0 h.symm
        simp [ainsert, alookup, h0, hk]
      · simp [ainsert, alookup, h0, h1, ih]

theorem alookup_aremove {β : Type} (l : List (String × β)) (k k' : String) :
    alookup (aremove l k) k' = if k = k' then none else alookup l k' := by
  induction l with
  | nil => simp [aremove, alookup]
  | cons p rest ih =>
    obtain ⟨k0, w⟩ := p
    by_cases h0 : k0 = k
    · subst h0
      by_cases h1 : k0 = k'
      · subst h1; simp [aremove, alookup, ih]
      · simp [aremove, alookup, h1, ih]
    · by_cases h1 : k0 = k'
      · subst h1
        have hk : ¬ k = k0 := fun h => h0 h.symm
        simp [aremove, alookup, h0, hk]
      · simp [aremove, alookup, h0, h1, ih]

theorem alookup_mem {β : Type} (l : List (String × β)) (k : String) (v : β)
    (h : alookup l k = some v) : (k, v) ∈ l := by
  induction l with
  | nil => simp [alookup] at h
  | cons p rest ih =>
    obtain ⟨k0, w⟩ := p
    by_cases h0 : k0 = k
    · subst h0
      simp [alookup] at h
      simp [h]
    · simp [alookup, h0] at h
      exact List.mem_cons_of_mem _ (ih h)

theorem ainsert_of_not_mem {β : Type} (l : List (String × β)) (k : String)
    (v : β) (h : k ∉ akeys l) : ainsert l k v = l ++ [(k, v)] := by
  induction l with
  | nil => simp [ainsert]
  | cons p rest ih =>
    obtain ⟨k0, w⟩ := p
    simp [akeys] at h
    have h0 : ¬ k0 = k := fun he => h.1 he.symm
    simp [ainsert, h0, ih (by simp [akeys, h.2])]

theorem akeys_append {β : Type} (l l' : List (String × β)) :
    akeys (l ++ l') = akeys l ++ akeys l' := by
  simp [akeys]

/-- Lookup in a row built by folding `ainsert` with values depending only on
the key: the result is the described value exactly for keys among the
inserted ones. -/
theorem alookup_foldl_ainsert (f : String → Json) (names : List String) :
    ∀ (r0 : List (String × Json)) (k : String),
      alookup (names.foldl (fun r v => ainsert r v (f v)) r0) k =
        if k ∈ names then some (f k) else alookup r0 k := by
  induction names with
  | nil => intro r0 k; simp
  | cons v rest ih =>
    intro r0 k
    simp only [List.foldl_cons]
    rw [ih]
    by_cases hk : k ∈ rest
    · simp [hk]
    · by_cases hv : k = v
      · subst hv
        simp [hk, alookup_ainsert]
      · have hv' : ¬ v = k := fun h => hv h.symm
        simp [hk, hv, hv', alookup_ainsert]

/-- Keys of a row built by folding `ainsert` over distinct fresh keys: they
are appended in order. -/
theorem akeys_foldl_ainsert (f : String → Json) (names : List String) :
    ∀ r0 : List (String × Json), names.Nodup →
      (∀ v ∈ names, v ∉ akeys r0) →
      akeys (names.foldl (fun r v => ainsert r v (f v)) r0) =
        akeys r0 ++ names := by
  induction names with
  | nil => intro r0 _ _; simp
  | cons v rest ih =>
    intro r0 hnd hfresh
    simp only [List.foldl_cons]
    rw [ainsert_of_not_mem r0 v (f v) (hfresh v (by simp))]
    rw [ih (r0 ++ [(v, f v)]) (List.Nodup.of_cons hnd)]
    · simp [akeys_append, akeys]
    · intro u hu
      rw [akeys_append]
      intro hmem
      rcases List.mem_append.mp hmem with h1 | h2
      · exact hfresh u (List.mem_cons_of_mem _ hu) h1
      · have he : u = v := by simpa [akeys] using h2
        subst he
        exact (List.nodup_cons.mp hnd).1 hu

/-! ## Characterization of the translator on well-shaped input -/

/-- On a binding object whose descriptors are all objects, the inner-loop
step never raises: it binds the variable exactly as the spec describes. -/
theorem bindVar_ok (b : List (String × Json))
    (hb : ∀ p ∈ b, isObj p.2 = true) (row : List (String × Json))
    (v : String) :
    bindVar (.obj b) row (.str v) = .ok (ainsert row v (specRowVal b v)) := by
  cases hlv : alookup b v with
  | none => simp [bindVar, getBound, getItem, specRowVal, hlv]
  | some d =>
    have hd := hb (v, d) (alookup_mem b v d hlv)
    cases d with
    | obj dd =>
      cases hv : alookup dd "value" with
      | none => simp [bindVar, getBound, getItem, specRowVal, hlv, hv]
      | some x => simp [bindVar, getBound, getItem, specRowVal, hlv, hv]
    | null => simp [isObj] at hd
    | bool bb => simp [isObj] at hd
    | num nn => simp [isObj] at hd
    | str ss => simp [isObj] at hd
    | arr xs => simp [isObj] at hd

/-- The inner loop on a good binding builds exactly the spec's row. -/
theorem buildRow_ok (b : List (String × Json))
    (hb : ∀ p ∈ b, isObj p.2 = true) (names : List String) :
    ∀ row, buildRow (.obj b) row (names.map Json.str) =
      .ok (names.foldl (fun r v => ainsert r v (specRowVal b v)) row) := by
  induction names with
  | nil => intro row; simp [buildRow]
  | cons v rest ih =>
    intro row
    simp only [List.map_cons, List.foldl_cons]
    rw [buildRow, bindVar_ok b hb row v]
    exact ih _

/-- The outer loop on good bindings builds exactly the spec's rows. -/
theorem buildRows_ok (j : Json) (names : List String)
    (hh : getItem2 j "head" "vars" = .ok (.arr (names.map Json.str)))
    (bs : List (List (String × Json)))
    (hb : ∀ b ∈ bs, ∀ p ∈ b, isObj p.2 = true) :
    buildRows j (bs.map Json.obj) =
      .ok (bs.map fun b => Json.obj (specRow b names)) := by
  induction bs with
  | nil => simp [buildRows]
  | cons b rest ih =>
    simp only [List.map_cons]
    rw [buildRows, hh]
    simp only [iterElems]
    rw [buildRow_ok b (hb b (by simp)) names []]
    rw [ih (fun b' hb' p hp => hb b' (List.mem_cons_of_mem _ hb') p hp)]
    rfl

/-- Main characterization: on any well-shaped input, the translator returns
exactly the columns and rows the specification describes. -/
theorem transform_wellShaped (j : Json) (names : List String)
    (bs : List (List (String × Json))) (h : WellShaped j names bs) :
    transform j = .ok (.obj
      [("columns", .arr (names.map specCol)),
       ("rows", .arr (bs.map fun b => Json.obj (specRow b names)))]) := by
  obtain ⟨hh, hb, hdesc⟩ := h
  rw [transform, hb]
  simp only [iterElems]
  rw [buildRows_ok j names hh bs hdesc, hh]
  simp only [iterElems]
  have hcols : (names.map Json.str).map mkCol = names.map specCol := by
    simp [mkCol, specCol, Function.comp]
  rw [hcols]

/-! ## Characterization of the environment staging -/

/-- One staging step sets its own key to the configuration's value (popping
first, so an absent or null configuration value leaves the key removed) and
leaves every other key untouched. -/
theorem alookup_setupStep (cfg : Config) (env : Env) (key k : String) :
    alookup (setupStep cfg env key) k =
      if key = k then cfgGet cfg key else alookup env k := by
  unfold setupStep
  cases hc : cfgGet cfg key with
  | some v =>
    simp only [hc]
    rw [alookup_ainsert]
    by_cases hk : key = k
    · simp [hk]
    · by_cases hs : (alookup env key).isSome
      · simp [hk, hs, alookup_aremove]
      · simp [hk, hs]
  | none =>
    simp only [hc]
    by_cases hk : key = k
    · subst hk
      cases h : alookup env key with
      | some w => simp [h, alookup_aremove]
      | none => simp [h]
    · by_cases hs : (alookup env key).isSome
      · simp [hk, hs, alookup_aremove]
      · simp [hk, hs]

/-- Keys not processed by the staging fold keep their prior value. -/
theorem alookup_foldl_setupStep_of_not_mem (cfg : Config)
    (keys : List String) :
    ∀ (env : Env) (k : String), k ∉ keys →
      alookup (keys.foldl (setupStep cfg) env) k = alookup env k := by
  induction keys with
  | nil => intro env k _; rfl
  | cons key rest ih =>
    intro env k hk
    simp only [List.foldl_cons]
    rw [ih _ k (fun h => hk (List.mem_cons_of_mem _ h))]
    rw [alookup_setupStep]
    have : ¬ key = k := fun h => hk (h ▸ List.mem_cons_self _ _)
    simp [this]

/-- Keys processed by the staging fold (each at most once) end with exactly
the configuration's value. -/
theorem alookup_foldl_setupStep_of_mem (cfg : Config) (keys : List String) :
    ∀ (env : Env) (k : String), keys.Nodup → k ∈ keys →
      alookup (keys.foldl (setupStep cfg) env) k = cfgGet cfg k := by
  induction keys with
  | nil => intro env k _ hk; simp at hk
  | cons key rest ih =>
    intro env k hnd hk
    simp only [List.foldl_cons]
    by_cases hmem : k ∈ rest
    · exact ih _ k (List.Nodup.of_cons hnd) hmem
    · have he : k = key := by
        rcases List.mem_cons.mp hk with h | h
        · exact h
        · exact absurd h hmem
      subst he
      rw [alookup_foldl_setupStep_of_not_mem cfg rest _ k hmem]
      rw [alookup_setupStep]
      simp

/-! ## Concrete inputs used by the claim theorems and witnesses -/

/-- The `noop_query` scenario input string
`{"head":{"vars":["noop"]},"results":{"bindings":[{"noop":{"type":"literal","value":"noop"}}]}}`
(braces written with hexadecimal escapes). -/
def noopInputStr : String :=
  "\x7b\"head\":\x7b\"vars\":[\"noop\"]\x7d,\"results\":\x7b\"bindings\":[\x7b\"noop\":\x7b\"type\":\"literal\",\"value\":\"noop\"\x7d\x7d]\x7d\x7d"

/-- The JSON parse of `noopInputStr`. -/
def noopJson : Json :=
  .obj [("head", .obj [("vars", .arr [.str "noop"])]),
        ("results", .obj [("bindings",
          .arr [.obj [("noop", .obj [("type", .str "literal"),
                                     ("value", .str "noop")])]])])]

/-- The expected translation of the `noop` scenario. -/
def noopExpected : Json :=
  .obj [("columns", .arr [.obj [("name", .str "noop"),
                                ("friendly_name", .str "noop"),
                                ("type", .str "string")]]),
        ("rows", .arr [.obj [("noop", .str "noop")]])]

/-- A concrete parser agreeing with the JSON parse of `noopInputStr`. -/
def parse0 : String → Option Json :=
  fun s => if s = noopInputStr then some noopJson else none

/-- An external client returning the `noop` scenario payload. -/
def getResults0 : String → Except PyErr String :=
  fun _ => .ok noopInputStr

/-- A well-shaped two-variable input whose single binding binds only `a`,
leaving `b` unbound. -/
def jW : Json :=
  .obj [("head", .obj [("vars", .arr [.str "a", .str "b"])]),
        ("results", .obj [("bindings",
          .arr [.obj [("a", .obj [("type", .str "literal"),
                                  ("value", .str "x1")])]])])]

/-- The bindings of `jW` as association lists. -/
def bW : List (List (String × Json)) :=
  [[("a", Json.obj [("type", Json.str "literal"), ("value", Json.str "x1")])]]

/-- An input binding the variable `v` to a plain string instead of a value
descriptor object. -/
def cexInput : Json :=
  .obj [("head", .obj [("vars", .arr [.str "v"])]),
        ("results", .obj [("bindings", .arr [.obj [("v", .str "plain")]])])]

/-- The same shape used for the `TypeError` claim: variable `v` bound to a
bare string. -/
def c9Input : Json :=
  .obj [("head", .obj [("vars", .arr [.str "v"])]),
        ("results", .obj [("bindings", .arr [.obj [("v", .str "plain")]])])]

/-- An input whose descriptor carries a non-string `value` field. -/
def jN : Json :=
  .obj [("head", .obj [("vars", .arr [.str "n"])]),
        ("results", .obj [("bindings",
          .arr [.obj [("n", .obj [("value", .num 5)])]])])]

/-! ## Claim theorems -/

/-- C1 (counterexample): the claim quantifies over every input whose
`head.vars` is an array of strings and whose `results.bindings` is an array
of objects, and promises one output row per binding.  On the input binding
`v` to the bare string `"plain"`, both hypotheses hold, yet the translator
raises `TypeError` (the subscript `sparql_row[var]["value"]` on a
non-dictionary) and produces no output at all, so the claim as stated is
false. -/
theorem claim_C1_counterexample :
    getItem2 cexInput "head" "vars" = .ok (.arr (["v"].map Json.str)) ∧
    getItem2 cexInput "results" "bindings" =
      .ok (.arr ([[("v", Json.str "plain")]].map Json.obj)) ∧
    ∀ out : Json, ¬ transform cexInput = .ok out := by
  refine ⟨rfl, rfl, ?_⟩
  intro out hout
  have h : transform cexInput = .error .typeError := by rfl
  rw [h] at hout
  exact Except.noConfusion hout

/-- C1 (amended: every value descriptor occurring in a binding must itself
be a JSON object, which is part of `WellShaped`): the translator produces one
output row per binding object, in original order, and for each variable `v`
of `head.vars` the row maps `v` to `b[v].value` when `v` is a key of the
binding and the descriptor has a `value` field, and to the empty string
otherwise — exactly `specRowVal`. -/
theorem claim_C1 (j : Json) (names : List String)
    (bs : List (List (String × Json))) (h : WellShaped j names bs) :
    ∃ cols : Json,
      transform j = .ok (.obj [("columns", cols),
        ("rows", .arr (bs.map fun b => Json.obj (specRow b names)))]) ∧
      ∀ b ∈ bs, ∀ v ∈ names,
        alookup (specRow b names) v = some (specRowVal b v) := by
  refine ⟨_, transform_wellShaped j names bs h, ?_⟩
  intro b _ v hv
  rw [specRow, alookup_foldl_ainsert]
  simp [hv]

/-- C1 witness: the amended claim evaluated on the two-variable input whose
single binding leaves `b` unbound. -/
theorem claim_C1_witness :
    ∃ cols : Json,
      transform jW = .ok (.obj [("columns", cols),
        ("rows", .arr (bW.map fun b => Json.obj (specRow b ["a", "b"])))]) ∧
      ∀ b ∈ bW, ∀ v ∈ ["a", "b"],
        alookup (specRow b ["a", "b"]) v = some (specRowVal b v) :=
  claim_C1 jW ["a", "b"] bW ⟨rfl, rfl, by decide⟩

/-- C2: on every well-shaped input the `columns` array has exactly one entry
per variable of `head.vars`, in the same order, each entry being
`{name: v, friendly_name: v, type: "string"}` with the constant type
`"string"` — no inference, sorting, deduplication or renaming. -/
theorem claim_C2 (j : Json) (names : List String)
    (bs : List (List (String × Json))) (h : WellShaped j names bs) :
    ∃ rows : Json, transform j =
      .ok (.obj [("columns", .arr (names.map specCol)), ("rows", rows)]) :=
  ⟨_, transform_wellShaped j names bs h⟩

/-- C2 witness: the columns computed for the two-variable input. -/
theorem claim_C2_witness :
    ∃ rows : Json, transform jW =
      .ok (.obj [("columns", .arr (["a", "b"].map specCol)), ("rows", rows)]) :=
  claim_C2 jW ["a", "b"] bW ⟨rfl, rfl, by decide⟩

/-- C3: on every well-shaped input with distinct variable names, the number
of columns equals the number of variables, the number of rows equals the
number of bindings, each row is an object whose key set is exactly the set
of variable names (with exactly that many keys), and a variable unbound in
the corresponding binding appears as the empty string rather than being
omitted. -/
theorem claim_C3 (j : Json) (names : List String)
    (bs : List (List (String × Json))) (h : WellShaped j names bs)
    (hnd : names.Nodup) :
    ∃ (cols : List Json) (rows : List Json),
      transform j = .ok (.obj [("columns", .arr cols),
                               ("rows", .arr rows)]) ∧
      cols.length = names.length ∧
      rows.length = bs.length ∧
      ∀ i, i < bs.length →
        ∃ (kvs bkvs : List (String × Json)),
          rows[i]? = some (Json.obj kvs) ∧ bs[i]? = some bkvs ∧
          (∀ k, k ∈ akeys kvs ↔ k ∈ names) ∧
          (akeys kvs).length = names.length ∧
          ∀ v ∈ names, alookup bkvs v = none →
            alookup kvs v = some (Json.str "") := by
  refine ⟨names.map specCol, bs.map fun b => Json.obj (specRow b names),
    transform_wellShaped j names bs h, by simp, by simp, ?_⟩
  intro i hi
  have hki : akeys (specRow (bs[i]) names) = names := by
    rw [specRow, akeys_foldl_ainsert _ names [] hnd (by intro v _; simp [akeys])]
    simp [akeys]
  refine ⟨specRow (bs[i]) names, bs[i], ?_, ?_, ?_, ?_, ?_⟩
  · simp [hi]
  · simp [hi]
  · intro k; rw [hki]
  · rw [hki]
  · intro v hv hnone
    rw [specRow, alookup_foldl_ainsert]
    simp [hv, specRowVal, hnone]

/-- C3 witness: the invariant evaluated on the two-variable input. -/
theorem claim_C3_witness :
    ∃ (cols : List Json) (rows : List Json),
      transform jW = .ok (.obj [("columns", .arr cols),
                               ("rows", .arr rows)]) ∧
      cols.length = (["a", "b"] : List String).length ∧
      rows.length = bW.length ∧
      ∀ i, i < bW.length →
        ∃ (kvs bkvs : List (String × Json)),
          rows[i]? = some (Json.obj kvs) ∧ bW[i]? = some bkvs ∧
          (∀ k, k ∈ akeys kvs ↔ k ∈ (["a", "b"] : List String)) ∧
          (akeys kvs).length = (["a", "b"] : List String).length ∧
          ∀ v ∈ (["a", "b"] : List String), alookup bkvs v = none →
            alookup kvs v = some (Json.str "") :=
  claim_C3 jW ["a", "b"] bW ⟨rfl, rfl, by decide⟩ (by decide)

/-- C4: on the concrete `noop` scenario string, any parser that performs its
JSON parse makes the translator return exactly the expected
`{columns, rows}` structure. -/
theorem claim_C4 (parse : String → Option Json)
    (hp : parse noopInputStr = some noopJson) :
    translate parse noopInputStr = .ok noopExpected := by
  simp only [translate, hp]
  rfl

/-- C4 witness: the scenario evaluated with the concrete parser `parse0`. -/
theorem claim_C4_witness : translate parse0 noopInputStr = .ok noopExpected :=
  claim_C4 parse0 (by simp [parse0])

/-- Helper for C5: when the lookup of `head.vars` raises, the translator as
a whole raises, whatever the rest of the input looks like. -/
theorem transform_error_of_headvars (j : Json) (e : PyErr)
    (hh : getItem2 j "head" "vars" = .error e) :
    ∃ e2, transform j = .error e2 := by
  cases hb : getItem2 j "results" "bindings" with
  | error eb => exact ⟨eb, by simp [transform, hb]⟩
  | ok bindings =>
    cases hi : iterElems bindings with
    | error ei => exact ⟨ei, by simp [transform, hb, hi]⟩
    | ok blist =>
      cases blist with
      | nil => exact ⟨e, by simp [transform, hb, hi, buildRows, hh]⟩
      | cons x rest => exact ⟨e, by simp [transform, hb, hi, buildRows, hh]⟩

/-- C5: if the input string is not valid JSON, or its parse lacks the
`head.vars` path or the `results.bindings` path (missing key, or a
non-object along the path), the translator signals an error and returns no
translated value. -/
theorem claim_C5 (parse : String → Option Json) (s : String)
    (h : parse s = none ∨ ∃ j, parse s = some j ∧
      ((∃ e, getItem2 j "head" "vars" = .error e) ∨
       (∃ e, getItem2 j "results" "bindings" = .error e))) :
    ∃ e2, translate parse s = .error e2 := by
  rcases h with hp | ⟨j, hp, hcase⟩
  · exact ⟨.malformedJson, by simp [translate, hp]⟩
  · rcases hcase with ⟨e, he⟩ | ⟨e, he⟩
    · obtain ⟨e2, h2⟩ := transform_error_of_headvars j e he
      exact ⟨e2, by simp [translate, hp, h2]⟩
    · exact ⟨e, by simp [translate, hp, transform, he]⟩

/-- C5 witness: the parser refusing an invalid string, and a parsed value
missing the `results` key, both make the translator err. -/
theorem claim_C5_witness :
    ∃ e2, translate (fun _ => none) "not json" = .error e2 :=
  claim_C5 (fun _ => none) "not json" (Or.inl rfl)

/-- C6: after `_setup_environment` runs, every allow-listed key holds
exactly the configuration's (non-null) value — present if and only if the
configuration maps it to a value, prior values overwritten, and absent or
null configuration entries leaving the key removed — while every key outside
the allow-list keeps its prior value. -/
theorem claim_C6 (cfg : Config) (env : Env) (k : String) :
    alookup (setup_environment cfg env) k =
      if k ∈ KNOWN_CONFIG_KEYS then cfgGet cfg k else alookup env k := by
  by_cases hk : k ∈ KNOWN_CONFIG_KEYS
  · rw [if_pos hk]
    exact alookup_foldl_setupStep_of_mem cfg KNOWN_CONFIG_KEYS env k
      (by decide) hk
  · rw [if_neg hk]
    exact alookup_foldl_setupStep_of_not_mem cfg KNOWN_CONFIG_KEYS env k hk

/-- C7: whenever `run_query` completes without an exception, the returned
pair is the translated result together with a null error; and an exception
from the external client propagates uncaught as the call's outcome. -/
theorem claim_C7 (parse : String → Option Json)
    (getResults : String → Except PyErr String) (cfg : Config) (env : Env)
    (query : String) :
    (∀ data err,
        (run_query parse getResults cfg env query).1 = .ok (data, err) →
        err = none ∧ ∃ raw, getResults query = .ok raw ∧
          translate parse raw = .ok data) ∧
    (∀ e, getResults query = .error e →
        (run_query parse getResults cfg env query).1 = .error e) := by
  constructor
  · intro data err hok
    cases hg : getResults query with
    | error e => simp [run_query, hg] at hok
    | ok raw =>
      cases ht : translate parse raw with
      | error e => simp [run_query, hg, ht] at hok
      | ok d =>
        simp [run_query, hg, ht] at hok
        exact ⟨hok.2.symm, raw, rfl, by rw [ht, hok.1]⟩
  · intro e hg
    simp [run_query, hg]

/-- C7 witness: the no-exception case evaluated with the concrete parser and
a client returning the `noop` payload. -/
theorem claim_C7_witness :
    (none : Option String) = none ∧ ∃ raw, getResults0 "q" = .ok raw ∧
      translate parse0 raw = .ok noopExpected :=
  (claim_C7 parse0 getResults0 [] [] "q").1 noopExpected none (by
    simp [run_query, getResults0, parse0]
    rfl)

/-- C8: the translator is deterministic and idempotent — its result depends
only on its input string, not on the shared state (the log) it appends to,
and a repeated call on the same input, sequenced through that state, returns
a structurally identical result. -/
theorem claim_C8 (parse : String → Option Json) (s : String)
    (log log' : List String) :
    (translateLogged parse s log).1 = (translateLogged parse s log').1 ∧
    (translateLogged parse s (translateLogged parse s log).2).1 =
      (translateLogged parse s log).1 :=
  ⟨rfl, rfl⟩

/-- C9: the lenient unbound handling catches only `KeyError`: on an input
with well-formed `head` and `results` whose binding maps `v` to a bare
string, the translator raises `TypeError` instead of producing an empty
string. -/
theorem claim_C9 :
    getItem2 c9Input "head" "vars" = .ok (.arr [.str "v"]) ∧
    getItem2 c9Input "results" "bindings" =
      .ok (.arr [.obj [("v", .str "plain")]]) ∧
    transform c9Input = .error .typeError :=
  ⟨rfl, rfl, rfl⟩

/-- C10: a bound value is copied verbatim — when the descriptor's `value`
field holds any JSON value `x` (a number, boolean, object, null, …), the
output row maps the variable to exactly `x`, even though the column type is
declared `"string"`. -/
theorem claim_C10 (j : Json) (names : List String)
    (bs : List (List (String × Json))) (h : WellShaped j names bs)
    (i : Nat) (b : List (String × Json)) (hb : bs[i]? = some b)
    (v : String) (hv : v ∈ names) (d : List (String × Json))
    (hd : alookup b v = some (.obj d)) (x : Json)
    (hx : alookup d "value" = some x) :
    ∃ (cols : Json) (rows : List Json),
      transform j = .ok (.obj [("columns", cols), ("rows", .arr rows)]) ∧
      ∃ kvs, rows[i]? = some (Json.obj kvs) ∧ alookup kvs v = some x := by
  refine ⟨_, _, transform_wellShaped j names bs h,
    specRow b names, ?_, ?_⟩
  · simp [hb]
  · rw [specRow, alookup_foldl_ainsert]
    simp [hv, specRowVal, hd, hx]

/-- C10 witness: the integer value `5` survives translation unchanged. -/
theorem claim_C10_witness :
    ∃ (cols : Json) (rows : List Json),
      transform jN = .ok (.obj [("columns", cols), ("rows", .arr rows)]) ∧
      ∃ kvs, rows[0]? = some (Json.obj kvs) ∧
        alookup kvs "n" = some (Json.num 5) :=
  claim_C10 jN ["n"] [[("n", Json.obj [("value", Json.num 5)])]]
    ⟨rfl, rfl, by decide⟩ 0 [("n", Json.obj [("value", Json.num 5)])] rfl
    "n" (by simp) [("value", Json.num 5)] rfl (Json.num 5) rfl

end CorporateMemory
